import Mathlib

/-!
Shallow embedding of `src/Dominoes/task/dominoes/dominoes.py`, a console
double-six dominoes game (one human player against a computer player).

Modelling conventions:
  * a Python piece `[a, b]` is a `Piece` structure with fields `a` and `b`;
    Python's `x in piece` is `Piece.mem`, `piece[::-1]` is `Piece.flip`;
  * the `Dominoes` object's attributes become the fields of `Game`;
  * Python indexing that can raise `IndexError` is modelled with `Option`:
    a function returns `none` exactly on the inputs where the Python code
    would raise;
  * `random.shuffle` and `random.sample` are modelled by a `Deal` oracle
    that records their results, together with a validity predicate
    `Deal.valid` saying the recorded results are ones the Python library
    could have produced (a permutation of the list being shuffled, and
    7-element duplicate-free selections from the sampled populations);
  * in `__init__` the statement `self.stock_pieces = self.initial_pieces`
    makes `stock_pieces` an alias of the class attribute `initial_pieces`
    (no copy is taken), and `random.shuffle` mutates its argument in place.
    The field `stock_aliased` records whether `stock_pieces` is still that
    alias, so `new_game` can reproduce the in-place reordering of
    `initial_pieces` that the first shuffle performs.
-/

/-- Piece models a Python domino piece `[a, b]`: a two-element list of pip
values. -/
structure Piece where
  a : Nat
  b : Nat
deriving DecidableEq, Repr

/-- Flip models `piece[::-1]`: the reversed two-element list. -/
def Piece.flip (p : Piece) : Piece := ⟨p.b, p.a⟩

/-- Membership models Python's `n in piece` on the two-element list. -/
def Piece.mem (p : Piece) (n : Nat) : Bool := n == p.a || n == p.b

/-- Game models the attributes of the `Dominoes` object, plus the
`stock_aliased` flag that records whether `stock_pieces` is still the alias
of the class attribute `initial_pieces` that `__init__` set up. -/
structure Game where
  initial_pieces : List Piece
  stock_aliased : Bool
  stock_pieces : List Piece
  computer_pieces : List Piece
  player_pieces : List Piece
  domino_snake : List Piece
  status : String
deriving DecidableEq, Repr

/-- The class attribute `initial_pieces`: the 28 pieces of a double-six set,
in the source's order. -/
def initial_pieces : List Piece :=
  [⟨0, 0⟩, ⟨0, 1⟩, ⟨0, 2⟩, ⟨0, 3⟩, ⟨0, 4⟩, ⟨0, 5⟩, ⟨0, 6⟩,
   ⟨1, 1⟩, ⟨1, 2⟩, ⟨1, 3⟩, ⟨1, 4⟩, ⟨1, 5⟩, ⟨1, 6⟩,
   ⟨2, 2⟩, ⟨2, 3⟩, ⟨2, 4⟩, ⟨2, 5⟩, ⟨2, 6⟩,
   ⟨3, 3⟩, ⟨3, 4⟩, ⟨3, 5⟩, ⟨3, 6⟩,
   ⟨4, 4⟩, ⟨4, 5⟩, ⟨4, 6⟩,
   ⟨5, 5⟩, ⟨5, 6⟩,
   ⟨6, 6⟩]

/-- The state built by `Dominoes.__init__`: `stock_pieces` is the alias of
`initial_pieces`, the hands and the snake are empty, the status is `''`. -/
def Dominoes.init : Game :=
  { initial_pieces := initial_pieces
    stock_aliased := true
    stock_pieces := initial_pieces
    computer_pieces := []
    player_pieces := []
    domino_snake := []
    status := "" }

/-- Deal records the results of the random calls made by one `new_game`
call: the in-place `random.shuffle` of the stock, `random.sample(·, 7)` for
the computer hand, and `random.sample(·, 7)` for the player hand. -/
structure Deal where
  shuffled : List Piece
  csample : List Piece
  psample : List Piece
deriving Repr

/-- Validity of a recorded `Deal` against the stock it was drawn from:
the shuffle is a permutation of the stock, and each sample is a 7-element
duplicate-free selection from its population (for the player sample, the
stock left after removing the computer's pieces). -/
def Deal.valid (stock : List Piece) (d : Deal) : Prop :=
  d.shuffled.Perm stock ∧
  d.csample.Nodup ∧ d.csample.length = 7 ∧ (∀ p ∈ d.csample, p ∈ d.shuffled) ∧
  d.psample.Nodup ∧ d.psample.length = 7 ∧
    (∀ p ∈ d.psample, p ∈ d.shuffled.filter (fun q => !d.csample.contains q))

/-- Embedding of `new_game`: shuffle the stock in place, take 7 pieces for
the computer, remove them from the stock by a list comprehension (which
rebinds `stock_pieces` to a fresh list, breaking the alias), take 7 pieces
for the player, remove them too. While `stock_pieces` is still the alias of
`initial_pieces`, the in-place shuffle reorders `initial_pieces` as well. -/
def new_game (g : Game) (d : Deal) : Game :=
  let ip := if g.stock_aliased then d.shuffled else g.initial_pieces
  let stock1 := d.shuffled.filter (fun p => !d.csample.contains p)
  let stock2 := stock1.filter (fun p => !d.psample.contains p)
  { g with
    initial_pieces := ip
    stock_aliased := false
    stock_pieces := stock2
    computer_pieces := d.csample
    player_pieces := d.psample }

/-- The local list `double_pieces` of `start_game`, highest double first. -/
def double_pieces : List Piece :=
  [⟨6, 6⟩, ⟨5, 5⟩, ⟨4, 4⟩, ⟨3, 3⟩, ⟨2, 2⟩, ⟨1, 1⟩, ⟨0, 0⟩]

/-- Loop body of `start_game` over the remaining candidate doubles: the
first double found in the computer hand (checked first) or the player hand
is removed from that hand, appended to the snake, and the turn goes to the
other side. -/
def start_aux (g : Game) : List Piece → Game × Bool
  | [] => (g, false)
  | d :: rest =>
    if d ∈ g.computer_pieces then
      ({ g with
          computer_pieces := g.computer_pieces.erase d
          domino_snake := g.domino_snake ++ [d]
          status := "player" }, true)
    else if d ∈ g.player_pieces then
      ({ g with
          player_pieces := g.player_pieces.erase d
          domino_snake := g.domino_snake ++ [d]
          status := "computer" }, true)
    else start_aux g rest

/-- Embedding of `start_game`: scan `double_pieces` from `[6,6]` down to
`[0,0]`; the boolean is the `possible` return value. -/
def start_game (g : Game) : Game × Bool := start_aux g double_pieces

/-- Embedding of `move_is_legal`. The Python body is three guarded returns:
`move < 0 and snake[0][0] in piece`, then `move > 0 and snake[-1][1] in
piece`, then `move == 0`, then `return False`. Indexing an empty snake
raises `IndexError`, modelled by `none`; the short-circuit of `and` means
`move == 0` never touches the snake. -/
def move_is_legal (snake : List Piece) (piece : Piece) (move : Int) : Option Bool :=
  if move < 0 then
    match snake.head? with
    | none => none
    | some h => some (piece.mem h.a)
  else if move > 0 then
    match snake.getLast? with
    | none => none
    | some t => some (piece.mem t.b)
  else
    some true

/-- Helper modelling Python's `pieces.pop(i)`: the removed element and the
remaining list, or `none` when `i` is out of range. -/
def pop_at (l : List Piece) (i : Nat) : Option (Piece × List Piece) :=
  match l[i]? with
  | none => none
  | some x => some (x, l.eraseIdx i)

/-- Embedding of `apply_move` acting on `(pieces, snake, stock)` and
returning the updated triple. For `move < 0` the popped piece is prepended
and flipped when its second pip does not meet the old head (`snake[1]`,
whose access requires the old snake to be non-empty); for `move > 0` it is
appended and flipped when its first pip does not meet the old last piece
(`snake[-2]`); for `move == 0` the last stock piece (`stock.pop()`) is
appended to the hand when the stock is non-empty, and nothing happens when
it is empty. -/
def apply_move (pieces snake stock : List Piece) (move : Int) :
    Option (List Piece × List Piece × List Piece) :=
  if move < 0 then
    match pop_at pieces (move.natAbs - 1) with
    | none => none
    | some (p, pieces') =>
      match snake with
      | [] => none
      | h :: t =>
        let p' := if p.b ≠ h.a then p.flip else p
        some (pieces', p' :: h :: t, stock)
  else if move > 0 then
    match pop_at pieces (move.toNat - 1) with
    | none => none
    | some (p, pieces') =>
      match snake.getLast? with
      | none => none
      | some last =>
        let p' := if p.a ≠ last.b then p.flip else p
        some (pieces', snake ++ [p'], stock)
  else
    match stock.getLast? with
    | none => some (pieces, snake, stock)
    | some s => some (pieces ++ [s], snake, stock.dropLast)

/-- Embedding of the pip-frequency count of `ai_move`: the number of
occurrences of `num` across the pips of the computer hand plus the snake
(each piece contributes both of its pips). -/
def number_count (computer_pieces snake : List Piece) (num : Nat) : Nat :=
  ((computer_pieces.map fun p => [p.a, p.b]).flatten.count num)
  + ((snake.map fun p => [p.a, p.b]).flatten.count num)

/-- Embedding of the `piece_score` list of `ai_move`: each hand piece is
scored by the summed frequencies of its two pips. Scores are integers so
that checked pieces can be marked with `-1` as the source does. -/
def piece_score (computer_pieces snake : List Piece) : List Int :=
  computer_pieces.map fun p =>
    (number_count computer_pieces snake p.a : Int)
    + (number_count computer_pieces snake p.b : Int)

/-- Selection loop of `ai_move`, fuelled by the loop bound
`range(len(piece_score))`: take the first index holding the maximal score,
mark it with `-1`, and return the signed move for the first end (left, then
right) the piece is legal on; otherwise continue with the next candidate,
and return `0` when the loop ends. `none` propagates an `IndexError` from
`move_is_legal` on an empty snake. -/
def ai_loop (computer_pieces snake : List Piece) : List Int → Nat → Option Int
  | _, 0 => some 0
  | scores, fuel + 1 =>
    match scores.max? with
    | none => some 0
    | some m =>
      match computer_pieces[scores.indexOf m]? with
      | none => none
      | some p =>
        match move_is_legal snake p (-1) with
        | none => none
        | some true => some (-(scores.indexOf m + 1 : Int))
        | some false =>
          match move_is_legal snake p 1 with
          | none => none
          | some true => some ((scores.indexOf m : Int) + 1)
          | some false =>
            ai_loop computer_pieces snake (scores.set (scores.indexOf m) (-1)) fuel

/-- Embedding of `ai_move` on the computer hand and the snake. -/
def ai_move (computer_pieces snake : List Piece) : Option Int :=
  let scores := piece_score computer_pieces snake
  ai_loop computer_pieces snake scores scores.length

/-- Embedding of the `move` method, with the human's already-validated
input integer passed as `player_move` (the console retry loop around
`int(input())` is outside the engine). On the player's turn the move is
applied to the player hand and the turn switches to the computer; otherwise
the AI chooses and the turn switches to the player. -/
def Dominoes.move (g : Game) (player_move : Int) : Option Game :=
  if g.status = "player" then
    match apply_move g.player_pieces g.domino_snake g.stock_pieces player_move with
    | none => none
    | some (h, s, st) =>
      some { g with
              player_pieces := h
              domino_snake := s
              stock_pieces := st
              status := "computer" }
  else
    match ai_move g.computer_pieces g.domino_snake with
    | none => none
    | some m =>
      match apply_move g.computer_pieces g.domino_snake g.stock_pieces m with
      | none => none
      | some (h, s, st) =>
        some { g with
                computer_pieces := h
                domino_snake := s
                stock_pieces := st
                status := "player" }

/-- Embedding of `game_over`: empty player hand wins first, then empty
computer hand; otherwise the snake's two end pips are read (an
`IndexError`, hence `none`, when the snake is empty) and the status becomes
`draw` when they are equal and at least 8 snake pieces contain that pip. -/
def game_over (g : Game) : Option Game :=
  if g.player_pieces.length = 0 then
    some { g with status := "player_wins" }
  else if g.computer_pieces.length = 0 then
    some { g with status := "computer_wins" }
  else
    match g.domino_snake.head?, g.domino_snake.getLast? with
    | some h, some t =>
      if h.a = t.b then
        if 8 ≤ (g.domino_snake.filter fun p => p.mem h.a).length then
          some { g with status := "draw" }
        else
          some g
      else
        some g
    | _, _ => none

/-- Chain-adjacency predicate on the snake: every adjacent pair of pieces
matches at its junction, the right pip of the left piece equalling the left
pip of the right piece. -/
def chain_matches (snake : List Piece) : Prop :=
  List.Chain' (fun p q => p.b = q.a) snake

example : ai_move [⟨2, 3⟩, ⟨3, 3⟩] [⟨2, 2⟩] = some (-1) := by decide

/-- C10: `move_is_legal` with `move = 0` returns `True` without inspecting
the snake (so it succeeds even on an empty snake), and for any move, under
the precondition that the snake is non-empty, the function is total (never
`none`, the model of an `IndexError`). -/
theorem move_is_legal_draw_total (snake : List Piece) (piece : Piece) :
    move_is_legal snake piece 0 = some true ∧
    ∀ move : Int, snake ≠ [] → (move_is_legal snake piece move).isSome = true := by
  refine ⟨by simp [move_is_legal], ?_⟩
  intro move hne
  cases snake with
  | nil => exact absurd rfl hne
  | cons h t =>
    rcases hl : (h :: t).getLast? with _ | last
    · exact absurd (List.getLast?_eq_none_iff.mp hl) (by simp)
    · unfold move_is_legal
      split
      · simp
      · split
        · rw [hl]; rfl
        · rfl

/-- C5: on a non-empty snake with left end pip `h.a` and right end pip
`t.b`, `move_is_legal` with a negative move accepts exactly the pieces
containing the left end pip, with a positive move exactly the pieces
containing the right end pip, and with move `0` accepts unconditionally. -/
theorem move_is_legal_spec (snake : List Piece) (piece : Piece) (h t : Piece)
    (hh : snake.head? = some h) (ht : snake.getLast? = some t) (move : Int) :
    (move < 0 →
      (move_is_legal snake piece move = some true ↔ (h.a = piece.a ∨ h.a = piece.b))) ∧
    (0 < move →
      (move_is_legal snake piece move = some true ↔ (t.b = piece.a ∨ t.b = piece.b))) ∧
    (move = 0 → move_is_legal snake piece move = some true) := by
  refine ⟨?_, ?_, ?_⟩
  · intro hm
    rw [move_is_legal, if_pos hm, hh]
    simp [Piece.mem]
  · intro hm
    rw [move_is_legal, if_neg (by omega), if_pos hm, ht]
    simp [Piece.mem]
  · intro hm
    rw [move_is_legal, if_neg (by omega), if_neg (by omega)]

/-- Witness for C5 at the snake `[[2,2]]` and the piece `[2,3]`. -/
theorem move_is_legal_spec_witness :
    ([(⟨2, 2⟩ : Piece)].head? = some ⟨2, 2⟩) ∧
    ([(⟨2, 2⟩ : Piece)].getLast? = some ⟨2, 2⟩) ∧
    (((-1 : Int) < 0 →
      (move_is_legal [⟨2, 2⟩] ⟨2, 3⟩ (-1) = some true ↔
        ((2 : Nat) = 2 ∨ (2 : Nat) = 3))) ∧
    ((0 : Int) < -1 →
      (move_is_legal [⟨2, 2⟩] ⟨2, 3⟩ (-1) = some true ↔
        ((2 : Nat) = 2 ∨ (2 : Nat) = 3))) ∧
    ((-1 : Int) = 0 → move_is_legal [⟨2, 2⟩] ⟨2, 3⟩ (-1) = some true)) :=
  ⟨rfl, rfl, move_is_legal_spec [⟨2, 2⟩] ⟨2, 3⟩ ⟨2, 2⟩ ⟨2, 2⟩ rfl rfl (-1)⟩

/-- C7: `game_over` checks its conditions in a fixed order: an empty player
hand gives `player_wins` regardless of the computer hand or the snake; then
an empty computer hand gives `computer_wins`; and when both hands are
non-empty the status can only become `draw` or stay unchanged. -/
theorem game_over_order_spec (g : Game) :
    (g.player_pieces = [] → game_over g = some { g with status := "player_wins" }) ∧
    (g.player_pieces ≠ [] → g.computer_pieces = [] →
      game_over g = some { g with status := "computer_wins" }) ∧
    (g.player_pieces ≠ [] → g.computer_pieces ≠ [] → ∀ g',
      game_over g = some g' → g'.status = "draw" ∨ g' = g) := by
  refine ⟨?_, ?_, ?_⟩
  · intro hp
    simp [game_over, hp]
  · intro hp hc
    simp [game_over, hp, hc]
  · intro hp hc g' hg
    unfold game_over at hg
    rw [if_neg (by simpa using hp), if_neg (by simpa using hc)] at hg
    split at hg
    · split_ifs at hg
      · exact Or.inl (by cases hg; rfl)
      · exact Or.inr (Option.some.inj hg).symm
      · exact Or.inr (Option.some.inj hg).symm
    · exact absurd hg (by simp)

/-- C8: `apply_move` with move `0` on a non-empty stock moves exactly the
popped stock piece into the acting hand, leaving the snake and the rest of
the stock unchanged; on an empty stock it changes nothing; and in either
case the enclosing `move` method still switches the turn to the other
side. -/
theorem apply_move_draw_spec (pieces snake stock : List Piece) (g : Game) :
    (∀ s, stock.getLast? = some s →
      apply_move pieces snake stock 0 = some (pieces ++ [s], snake, stock.dropLast)) ∧
    (stock = [] → apply_move pieces snake stock 0 = some (pieces, snake, stock)) ∧
    (g.status = "player" → g.stock_pieces = [] →
      Dominoes.move g 0 = some { g with status := "computer" }) ∧
    (g.status ≠ "player" → g.stock_pieces = [] →
      ai_move g.computer_pieces g.domino_snake = some 0 →
      Dominoes.move g 0 = some { g with status := "player" }) := by
  refine ⟨?_, ?_, ?_, ?_⟩
  · intro s hs
    rw [apply_move, if_neg (by omega), if_neg (by omega), hs]
  · intro hstock
    subst hstock
    rfl
  · intro hstatus hstock
    rw [Dominoes.move, if_pos hstatus]
    rw [show apply_move g.player_pieces g.domino_snake g.stock_pieces 0
          = some (g.player_pieces, g.domino_snake, g.stock_pieces) by
        rw [hstock]; rfl]
  · intro hstatus hstock hai
    have happ : apply_move g.computer_pieces g.domino_snake g.stock_pieces 0
        = some (g.computer_pieces, g.domino_snake, g.stock_pieces) := by
      rw [hstock]; rfl
    rw [Dominoes.move, if_neg hstatus, hai]
    simp only [happ]

/-- Prepending the oriented piece keeps the chain matched when the piece
contains the old head's left pip. -/
lemma chain_matches_cons (p hh : Piece) (tt : List Piece)
    (hmem : p.mem hh.a = true) (hchain : chain_matches (hh :: tt)) :
    chain_matches ((if p.b ≠ hh.a then p.flip else p) :: hh :: tt) := by
  have hor : hh.a = p.a ∨ hh.a = p.b := by
    simpa [Piece.mem] using hmem
  refine List.chain'_cons.mpr ⟨?_, hchain⟩
  split_ifs with hflip
  · show p.a = hh.a
    rcases hor with hor | hor
    · exact hor.symm
    · exact absurd hor.symm hflip
  · show p.b = hh.a
    exact not_not.mp hflip

/-- Appending the oriented piece keeps the chain matched when the piece
contains the old last piece's right pip. -/
lemma chain_matches_append (snake : List Piece) (p last : Piece)
    (hlast : snake.getLast? = some last) (hmem : p.mem last.b = true)
    (hchain : chain_matches snake) :
    chain_matches (snake ++ [if p.a ≠ last.b then p.flip else p]) := by
  have hor : last.b = p.a ∨ last.b = p.b := by
    simpa [Piece.mem] using hmem
  refine (List.chain'_append).mpr ⟨hchain, List.chain'_singleton _, ?_⟩
  intro x hx y hy
  have hxl : x = last := by
    rw [Option.mem_def, hlast] at hx
    exact (Option.some.inj hx).symm
  have hyp : (if p.a ≠ last.b then p.flip else p) = y :=
    Option.some.inj (Option.mem_def.mp hy)
  subst hxl
  rw [← hyp]
  split_ifs with hflip
  · show x.b = p.b
    rcases hor with hor | hor
    · exact absurd hor.symm hflip
    · exact hor
  · show x.b = p.a
    exact (not_not.mp hflip).symm

/-- C4: applying a placement move (`move ≠ 0`) whose piece is legal on the
corresponding snake end preserves the chain-adjacency invariant: in the
resulting snake every adjacent pair matches at its junction, the inserted
piece being flipped when needed. -/
theorem apply_move_preserves_chain (hand snake stock : List Piece) (move : Int)
    (p : Piece) (h' s' st' : List Piece)
    (hmz : move ≠ 0)
    (hp : hand[move.natAbs - 1]? = some p)
    (hlegal : move_is_legal snake p move = some true)
    (hchain : chain_matches snake)
    (happly : apply_move hand snake stock move = some (h', s', st')) :
    chain_matches s' := by
  by_cases hneg : move < 0
  · rw [apply_move, if_pos hneg, pop_at, hp] at happly
    cases snake with
    | nil => exact absurd happly (by simp)
    | cons hh tt =>
      have hs' : s' = (if p.b ≠ hh.a then p.flip else p) :: hh :: tt := by
        cases happly
        rfl
      have hmem : p.mem hh.a = true := by
        rw [move_is_legal, if_pos hneg] at hlegal
        simpa using hlegal
      rw [hs']
      exact chain_matches_cons p hh tt hmem hchain
  · have hpos : 0 < move := by omega
    have hidx : move.toNat - 1 = move.natAbs - 1 := by omega
    rw [apply_move, if_neg hneg, if_pos hpos, pop_at, hidx, hp] at happly
    rcases hl : snake.getLast? with _ | last
    · rw [hl] at happly
      exact absurd happly (by simp)
    · rw [hl] at happly
      have hs' : s' = snake ++ [if p.a ≠ last.b then p.flip else p] := by
        cases happly
        rfl
      have hmem : p.mem last.b = true := by
        rw [move_is_legal, if_neg hneg, if_pos hpos, hl] at hlegal
        simpa using hlegal
      rw [hs']
      exact chain_matches_append snake p last hl hmem hchain

/-- Witness for C4: placing `[2,4]` on the left of the chain `[[2,3]]`
flips it to `[4,2]` and the resulting chain still matches. -/
theorem apply_move_preserves_chain_witness :
    ((-1 : Int) ≠ 0) ∧ chain_matches [⟨4, 2⟩, ⟨2, 3⟩] :=
  ⟨by decide,
    apply_move_preserves_chain [⟨2, 4⟩] [⟨2, 3⟩] [] (-1) ⟨2, 4⟩ [] [⟨4, 2⟩, ⟨2, 3⟩] []
      (by decide) (by decide) (by decide) (List.chain'_singleton _) (by decide)⟩

/-- Case analysis of the `start_game` scan over any remaining candidate
list: on success, some candidate double was appended to the snake, and the
status records the side that did not provide it, the computer hand having
been checked first. -/
lemma start_aux_cases (l : List Piece) (g g' : Game) (h : start_aux g l = (g', true)) :
    ∃ d ∈ l, g'.domino_snake = g.domino_snake ++ [d] ∧
      ((d ∈ g.computer_pieces ∧ g'.status = "player" ∧
        g'.computer_pieces = g.computer_pieces.erase d ∧
        g'.player_pieces = g.player_pieces) ∨
       (d ∉ g.computer_pieces ∧ d ∈ g.player_pieces ∧ g'.status = "computer" ∧
        g'.player_pieces = g.player_pieces.erase d ∧
        g'.computer_pieces = g.computer_pieces)) := by
  induction l with
  | nil => exact absurd h (by simp [start_aux])
  | cons d rest ih =>
    rw [start_aux] at h
    split_ifs at h with h1 h2
    · have hg' : g' = { g with
          computer_pieces := g.computer_pieces.erase d
          domino_snake := g.domino_snake ++ [d]
          status := "player" } := by
        cases h
        rfl
      exact ⟨d, by simp, by rw [hg'], Or.inl ⟨h1, by rw [hg'], by rw [hg'], by rw [hg']⟩⟩
    · have hg' : g' = { g with
          player_pieces := g.player_pieces.erase d
          domino_snake := g.domino_snake ++ [d]
          status := "computer" } := by
        cases h
        rfl
      exact ⟨d, by simp,
        by rw [hg'], Or.inr ⟨h1, h2, by rw [hg'], by rw [hg'], by rw [hg']⟩⟩
    · obtain ⟨d', hd', hrest⟩ := ih h
      exact ⟨d', by simp [hd'], hrest⟩

/-- C9: a successful `start_game` appended one double from `double_pieces`
to the snake and gave the turn to the side that did not open: status
`player` when the double came from the computer hand (which is checked
first), status `computer` when it came from the player hand. -/
theorem start_game_turn_spec (g g' : Game) (h : start_game g = (g', true)) :
    ∃ d, d ∈ double_pieces ∧ d.a = d.b ∧
      g'.domino_snake = g.domino_snake ++ [d] ∧
      ((d ∈ g.computer_pieces ∧ g'.status = "player" ∧
        g'.computer_pieces = g.computer_pieces.erase d ∧
        g'.player_pieces = g.player_pieces) ∨
       (d ∉ g.computer_pieces ∧ d ∈ g.player_pieces ∧ g'.status = "computer" ∧
        g'.player_pieces = g.player_pieces.erase d ∧
        g'.computer_pieces = g.computer_pieces)) := by
  obtain ⟨d, hd, hsnake, hcase⟩ := start_aux_cases double_pieces g g' h
  have hdd : ∀ x ∈ double_pieces, x.a = x.b := by decide
  exact ⟨d, hd, hdd d hd, hsnake, hcase⟩

/-- Witness for C9: with the computer holding `[6,6]` and the player
holding `[0,1]`, `start_game` opens with the computer's double and hands
the turn to the player. -/
theorem start_game_turn_witness :
    (start_game ⟨initial_pieces, true, [], [⟨6, 6⟩], [⟨0, 1⟩], [], ""⟩
      = (⟨initial_pieces, true, [], [], [⟨0, 1⟩], [⟨6, 6⟩], "player"⟩, true)) ∧
    (∃ d, d ∈ double_pieces ∧ d.a = d.b ∧
      (⟨initial_pieces, true, [], [], [⟨0, 1⟩], [⟨6, 6⟩], "player"⟩ : Game).domino_snake
        = (⟨initial_pieces, true, [], [⟨6, 6⟩], [⟨0, 1⟩], [], ""⟩ : Game).domino_snake ++ [d] ∧
      ((d ∈ [(⟨6, 6⟩ : Piece)] ∧
        (⟨initial_pieces, true, [], [], [⟨0, 1⟩], [⟨6, 6⟩], "player"⟩ : Game).status = "player" ∧
        (⟨initial_pieces, true, [], [], [⟨0, 1⟩], [⟨6, 6⟩], "player"⟩ : Game).computer_pieces
          = [(⟨6, 6⟩ : Piece)].erase d ∧
        (⟨initial_pieces, true, [], [], [⟨0, 1⟩], [⟨6, 6⟩], "player"⟩ : Game).player_pieces
          = [⟨0, 1⟩]) ∨
       (d ∉ [(⟨6, 6⟩ : Piece)] ∧ d ∈ [(⟨0, 1⟩ : Piece)] ∧
        (⟨initial_pieces, true, [], [], [⟨0, 1⟩], [⟨6, 6⟩], "player"⟩ : Game).status = "computer" ∧
        (⟨initial_pieces, true, [], [], [⟨0, 1⟩], [⟨6, 6⟩], "player"⟩ : Game).player_pieces
          = [(⟨0, 1⟩ : Piece)].erase d ∧
        (⟨initial_pieces, true, [], [], [⟨0, 1⟩], [⟨6, 6⟩], "player"⟩ : Game).computer_pieces
          = [⟨6, 6⟩]))) :=
  ⟨rfl,
    start_game_turn_spec ⟨initial_pieces, true, [], [⟨6, 6⟩], [⟨0, 1⟩], [], ""⟩
      ⟨initial_pieces, true, [], [], [⟨0, 1⟩], [⟨6, 6⟩], "player"⟩ rfl⟩

/-- Selection loop invariant: when no piece of the computer hand contains
either end pip of the snake, every legality check fails and the loop falls
through to the stock draw `0`. -/
lemma ai_loop_all_illegal (fuel : Nat) :
    ∀ (comp snake : List Piece) (h t : Piece) (scores : List Int),
      snake.head? = some h → snake.getLast? = some t →
      (∀ p ∈ comp, p.mem h.a = false ∧ p.mem t.b = false) →
      scores.length = comp.length →
      ai_loop comp snake scores fuel = some 0 := by
  induction fuel with
  | zero =>
    intro comp snake h t scores _ _ _ _
    rfl
  | succ n ih =>
    intro comp snake h t scores hh ht hall hlen
    rw [ai_loop]
    split
    · rfl
    · rename_i m hmax
      have hmem : m ∈ scores := List.max?_mem (fun a b => max_choice a b) hmax
      have hidx : scores.indexOf m < comp.length :=
        hlen ▸ List.indexOf_lt_length.mpr hmem
      split
      · rename_i hp
        rw [List.getElem?_eq_getElem hidx] at hp
        cases hp
      · rename_i p hp
        have hpmem : p ∈ comp := List.getElem?_mem hp
        obtain ⟨hL, hR⟩ := hall p hpmem
        have hleft : move_is_legal snake p (-1) = some false := by
          rw [move_is_legal, if_pos (by norm_num : (-1 : Int) < 0), hh]
          simp [hL]
        have hright : move_is_legal snake p 1 = some false := by
          rw [move_is_legal, if_neg (by norm_num : ¬((1 : Int) < 0)),
            if_pos (by norm_num : (0 : Int) < 1), ht]
          simp [hR]
        split
        · rename_i hnone
          rw [hleft] at hnone
          cases hnone
        · rename_i htrue
          rw [hleft] at htrue
          cases htrue
        · split
          · rename_i hnone
            rw [hright] at hnone
            cases hnone
          · rename_i htrue
            rw [hright] at htrue
            cases htrue
          · exact ih comp snake h t _ hh ht hall (by simpa using hlen)

/-- Selection loop soundness: a non-zero returned move points at a hand
piece that is legal on the corresponding end, the left end having been
tried before the right end. -/
lemma ai_loop_sound (fuel : Nat) :
    ∀ (comp snake : List Piece) (scores : List Int) (m : Int),
      ai_loop comp snake scores fuel = some m → m ≠ 0 →
      ∃ p, comp[m.natAbs - 1]? = some p ∧
        ((m < 0 ∧ move_is_legal snake p (-1) = some true) ∨
         (0 < m ∧ move_is_legal snake p (-1) = some false ∧
          move_is_legal snake p 1 = some true)) := by
  induction fuel with
  | zero =>
    intro comp snake scores m h hm
    exact absurd (Option.some.inj h).symm hm
  | succ n ih =>
    intro comp snake scores m h hm
    rw [ai_loop] at h
    split at h
    · exact absurd (Option.some.inj h).symm hm
    · rename_i mx hmax
      split at h
      · cases h
      · rename_i p hp
        split at h
        · cases h
        · rename_i hleft
          have hmval : m = -((scores.indexOf mx : Int) + 1) := (Option.some.inj h).symm
          subst hmval
          refine ⟨p, ?_, Or.inl ⟨by omega, hleft⟩⟩
          rw [show ((-((scores.indexOf mx : Int) + 1)).natAbs - 1)
              = scores.indexOf mx by omega]
          exact hp
        · rename_i hleft
          split at h
          · cases h
          · rename_i hright
            have hmval : m = (scores.indexOf mx : Int) + 1 := (Option.some.inj h).symm
            subst hmval
            refine ⟨p, ?_, Or.inr ⟨by omega, hleft, hright⟩⟩
            rw [show ((((scores.indexOf mx : Int)) + 1).natAbs - 1)
                = scores.indexOf mx by omega]
            exact hp
          · exact ih comp snake _ m h hm

/-- C6: concrete behaviour of the AI. On chain `[[2,2]]` with hand
`[[2,3],[3,3]]` the two pieces tie at score 6 and the earlier one, legal on
the left end, gives move `-1`. On chain `[[6,5]]` with hand
`[[5,0],[6,6]]` the higher-scoring `[6,6]` is chosen first. On chain
`[[5,4]]` with hand `[[6,6],[5,0]]` the best-scored piece is illegal on
both ends, is disqualified, and the next one plays. On chain
`[[3,2],[2,5]]` a piece legal on both ends plays left. In general, when no
hand piece contains either end pip the AI returns the draw move `0`, and a
non-zero returned move always points at a hand piece legal on the
corresponding end, the left end tried before the right. -/
theorem ai_move_spec :
    ai_move [⟨2, 3⟩, ⟨3, 3⟩] [⟨2, 2⟩] = some (-1) ∧
    ai_move [⟨5, 0⟩, ⟨6, 6⟩] [⟨6, 5⟩] = some (-2) ∧
    ai_move [⟨6, 6⟩, ⟨5, 0⟩] [⟨5, 4⟩] = some (-2) ∧
    ai_move [⟨3, 5⟩] [⟨3, 2⟩, ⟨2, 5⟩] = some (-1) ∧
    (∀ comp snake h t, snake.head? = some h → snake.getLast? = some t →
      (∀ p ∈ comp, p.mem h.a = false ∧ p.mem t.b = false) →
      ai_move comp snake = some 0) ∧
    (∀ comp snake (m : Int), ai_move comp snake = some m → m ≠ 0 →
      ∃ p, comp[m.natAbs - 1]? = some p ∧
        ((m < 0 ∧ move_is_legal snake p (-1) = some true) ∨
         (0 < m ∧ move_is_legal snake p (-1) = some false ∧
          move_is_legal snake p 1 = some true))) := by
  refine ⟨by decide, by decide, by decide, by decide, ?_, ?_⟩
  · intro comp snake h t hh ht hall
    exact ai_loop_all_illegal _ comp snake h t _ hh ht hall (by simp [piece_score])
  · intro comp snake m hm hmz
    exact ai_loop_sound _ comp snake _ m hm hmz

/-- Shuffle outcome that reverses the stock, with the first 7 and the next
7 pieces of the reversed order as the two sampled hands. -/
def rev_deal : Deal :=
  { shuffled := initial_pieces.reverse
    csample := [⟨6, 6⟩, ⟨5, 6⟩, ⟨5, 5⟩, ⟨4, 6⟩, ⟨4, 5⟩, ⟨4, 4⟩, ⟨3, 6⟩]
    psample := [⟨3, 5⟩, ⟨3, 4⟩, ⟨3, 3⟩, ⟨2, 6⟩, ⟨2, 5⟩, ⟨2, 4⟩, ⟨2, 3⟩] }

/-- C3 counterexample: a valid first deal whose shuffle reverses the stock
leaves `initial_pieces` in a different order than at program start, because
`__init__` aliases `stock_pieces` to `initial_pieces` and `random.shuffle`
mutates the shared list in place. -/
theorem new_game_reorders_initial_pieces :
    Deal.valid Dominoes.init.stock_pieces rev_deal ∧
    (new_game Dominoes.init rev_deal).initial_pieces ≠ Dominoes.init.initial_pieces :=
  ⟨⟨List.reverse_perm _, by decide⟩, by decide⟩

/-- C3 amended: after the first `new_game` on a fresh game,
`initial_pieces` equals the shuffled order, so it still holds the same 28
pieces as a multiset but not necessarily in the same order; any `new_game`
on a game whose stock no longer aliases `initial_pieces` leaves
`initial_pieces` unchanged. -/
theorem new_game_initial_pieces_spec (d d2 : Deal) (g : Game)
    (hd : Deal.valid Dominoes.init.stock_pieces d) (hg : g.stock_aliased = false) :
    (new_game Dominoes.init d).initial_pieces = d.shuffled ∧
    (new_game Dominoes.init d).initial_pieces.Perm initial_pieces ∧
    (new_game g d2).initial_pieces = g.initial_pieces := by
  refine ⟨rfl, hd.1, ?_⟩
  simp [new_game, hg]

/-- Shuffle outcome that keeps the stock order, dealing out the first 7 and
the next 7 pieces. -/
def id_deal : Deal :=
  { shuffled := initial_pieces
    csample := [⟨0, 0⟩, ⟨0, 1⟩, ⟨0, 2⟩, ⟨0, 3⟩, ⟨0, 4⟩, ⟨0, 5⟩, ⟨0, 6⟩]
    psample := [⟨1, 1⟩, ⟨1, 2⟩, ⟨1, 3⟩, ⟨1, 4⟩, ⟨1, 5⟩, ⟨1, 6⟩, ⟨2, 2⟩] }

/-- Witness for the amended C3 at the identity shuffle and a game whose
stock no longer aliases `initial_pieces`. -/
theorem new_game_initial_pieces_witness :
    Deal.valid Dominoes.init.stock_pieces id_deal ∧
    ((⟨[⟨1, 2⟩], false, [], [], [], [], ""⟩ : Game).stock_aliased = false) ∧
    ((new_game Dominoes.init id_deal).initial_pieces = id_deal.shuffled ∧
     (new_game Dominoes.init id_deal).initial_pieces.Perm initial_pieces ∧
     (new_game ⟨[⟨1, 2⟩], false, [], [], [], [], ""⟩ id_deal).initial_pieces
       = (⟨[⟨1, 2⟩], false, [], [], [], [], ""⟩ : Game).initial_pieces) := by
  have hv : Deal.valid Dominoes.init.stock_pieces id_deal :=
    ⟨List.Perm.refl _, by decide⟩
  exact ⟨hv, rfl, new_game_initial_pieces_spec id_deal id_deal _ hv rfl⟩

/-- Shuffle and sample outcome for a first deal in which both dealt hands
consist of non-double pieces only, so that `start_game` finds no opener and
the setup loop redeals. -/
def redeal_first : Deal :=
  { shuffled := initial_pieces
    csample := [⟨0, 1⟩, ⟨0, 2⟩, ⟨0, 3⟩, ⟨0, 4⟩, ⟨0, 5⟩, ⟨0, 6⟩, ⟨1, 2⟩]
    psample := [⟨1, 3⟩, ⟨1, 4⟩, ⟨1, 5⟩, ⟨1, 6⟩, ⟨2, 3⟩, ⟨2, 4⟩, ⟨2, 5⟩] }

/-- Outcome of the second `new_game` of the setup loop, drawn from the
14-piece residual stock that the first deal left behind. -/
def redeal_second : Deal :=
  { shuffled := [⟨0, 0⟩, ⟨1, 1⟩, ⟨2, 2⟩, ⟨2, 6⟩, ⟨3, 3⟩, ⟨3, 4⟩, ⟨3, 5⟩,
                 ⟨3, 6⟩, ⟨4, 4⟩, ⟨4, 5⟩, ⟨4, 6⟩, ⟨5, 5⟩, ⟨5, 6⟩, ⟨6, 6⟩]
    csample := [⟨0, 0⟩, ⟨1, 1⟩, ⟨2, 2⟩, ⟨2, 6⟩, ⟨3, 3⟩, ⟨3, 4⟩, ⟨3, 5⟩]
    psample := [⟨3, 6⟩, ⟨4, 4⟩, ⟨4, 5⟩, ⟨4, 6⟩, ⟨5, 5⟩, ⟨5, 6⟩, ⟨6, 6⟩] }

/-- The game state after the setup loop redeals once: first deal, failed
`start_game`, second deal from the residual stock. -/
def redeal_result : Game :=
  new_game (start_game (new_game Dominoes.init redeal_first)).1 redeal_second

/-- C2 (code bug evidence): a reachable setup run in which the first valid
deal puts no double in either hand, `start_game` fails leaving the state
unchanged, and the loop's second `new_game` deals from the 14-piece
residual stock, so afterwards only 14 of the 28 pieces remain across the
stock, the two hands and the snake: the 14 pieces dealt into the first
hands are lost and tile conservation fails. -/
theorem redeal_loses_pieces :
    Deal.valid Dominoes.init.stock_pieces redeal_first ∧
    (start_game (new_game Dominoes.init redeal_first)).2 = false ∧
    (start_game (new_game Dominoes.init redeal_first)).1
      = new_game Dominoes.init redeal_first ∧
    Deal.valid (new_game Dominoes.init redeal_first).stock_pieces redeal_second ∧
    redeal_result.stock_pieces.length + redeal_result.computer_pieces.length
      + redeal_result.player_pieces.length + redeal_result.domino_snake.length = 14 ∧
    ¬ (redeal_result.stock_pieces ++ redeal_result.computer_pieces
        ++ redeal_result.player_pieces ++ redeal_result.domino_snake).Perm
        initial_pieces := by
  refine ⟨⟨List.Perm.refl _, by decide⟩, by decide, by decide,
    ⟨?_, by decide⟩, by decide, fun hperm => absurd hperm.length_eq (by decide)⟩
  exact List.Perm.refl _

/-- A realistic mid-game state: all 28 pieces are distributed between the
10-piece snake, the two singleton hands and the 16-piece stock; the snake
is a correctly matched chain whose two end pips are both 4 and in which the
pip 4 occurs 8 times (counting both pips of the double `[4,4]`), while
only 7 snake pieces contain a 4. -/
def draw_state : Game :=
  { initial_pieces := initial_pieces
    stock_aliased := false
    stock_pieces := [⟨0, 0⟩, ⟨0, 5⟩, ⟨0, 6⟩, ⟨1, 1⟩, ⟨1, 2⟩, ⟨1, 3⟩, ⟨1, 5⟩,
                     ⟨1, 6⟩, ⟨2, 2⟩, ⟨2, 5⟩, ⟨2, 6⟩, ⟨3, 3⟩, ⟨3, 5⟩, ⟨3, 6⟩,
                     ⟨5, 5⟩, ⟨6, 6⟩]
    computer_pieces := [⟨0, 2⟩]
    player_pieces := [⟨0, 3⟩]
    domino_snake := [⟨4, 0⟩, ⟨0, 1⟩, ⟨1, 4⟩, ⟨4, 4⟩, ⟨4, 2⟩, ⟨2, 3⟩,
                     ⟨3, 4⟩, ⟨4, 5⟩, ⟨5, 6⟩, ⟨6, 4⟩]
    status := "player" }

/-- C1 (code bug evidence): in `draw_state` both hands are non-empty, both
snake ends read pip 4, and pip 4 occurs 8 times across the snake (counting
both pips of the double), which is the draw condition of the claim; yet
`game_over` leaves the status unchanged, because the code counts the snake
pieces containing the pip (7 here — a double counts once, and at most 7 of
the 28 distinct pieces contain any given pip), so its `>= 8` draw branch
cannot fire. -/
theorem game_over_blocked_no_draw :
    draw_state.player_pieces ≠ [] ∧
    draw_state.computer_pieces ≠ [] ∧
    draw_state.domino_snake.head? = some ⟨4, 0⟩ ∧
    draw_state.domino_snake.getLast? = some ⟨6, 4⟩ ∧
    number_count [] draw_state.domino_snake 4 = 8 ∧
    chain_matches draw_state.domino_snake ∧
    (draw_state.domino_snake.filter fun p => p.mem 4).length = 7 ∧
    game_over draw_state = some draw_state ∧
    draw_state.status = "player" := by
  refine ⟨by decide, by decide, by decide, by decide, by decide, ?_,
    by decide, by decide, by decide⟩
  simp [draw_state, chain_matches, List.chain'_cons, List.chain'_singleton, Piece.flip]
